import Mathlib

/-!
Shallow embedding of `src/utils/csvParser.ts` (a hand-written CSV tokenizer,
field cleaner, email/phone validators and validation pipeline), together with
proofs about the embedded functions.

JavaScript strings are modelled as lists of characters (`Str`); the functions
below mirror the source functions line by line.  JavaScript numbers used as
indices (with the `-1` sentinel) are modelled as `Int`; the thrown
`Error`/`TypeError` values are modelled by an explicit result type.
-/

namespace Csv

/-- JavaScript strings are modelled as lists of characters. -/
abbrev Str := List Char

/-- Abbreviation turning a Lean string literal into the character-list model. -/
def strOf (s : String) : Str := s.data

/-- The whitespace characters relevant to the ASCII inputs this program
handles; used to model JavaScript's `trim()` and the `\s` regex class. -/
def isWS (c : Char) : Bool := c = ' ' || c = '\t' || c = '\n' || c = '\r'

/-- Drop leading whitespace. -/
def trimL (s : Str) : Str := s.dropWhile isWS

/-- Drop trailing whitespace. -/
def trimR (s : Str) : Str := (s.reverse.dropWhile isWS).reverse

/-- Model of JavaScript `s.trim()`. -/
def trim (s : Str) : Str := trimR (trimL s)

/-- Model of JavaScript `text.split(sep)` for a one-character separator:
split at every occurrence, keeping empty pieces, and return `[[]]` on the
empty string. -/
def splitOnChar (sep : Char) : Str → List Str
  | [] => [[]]
  | c :: rest =>
    match splitOnChar sep rest with
    | [] => [[]]
    | h :: t => if c = sep then [] :: h :: t else (c :: h) :: t

/-- The mutable scanning state of `parseCSV`: the rows emitted so far, the
fields of the row under construction, the current field buffer, and the
`inQuotes` flag. -/
structure ScanState where
  rows : List (List Str)
  currentRow : List Str
  currentField : Str
  inQuotes : Bool
deriving DecidableEq

/-- One step of the inner character loop of `parseCSV`.  The source peeks at
`nextChar` to recognise an escaped `""` pair and skips it with `j++`; that
lookahead is modelled by the boolean component: it is `true` exactly when the
previous character was a `"` seen while `inQuotes` whose treatment (escaped
pair versus closing quote) depends on the current character. -/
def scanStep (p : ScanState × Bool) (c : Char) : ScanState × Bool :=
  let st := p.1
  if p.2 then
    if c = '"' then
      -- escaped quote: emit one literal quote, consume both characters
      ({ st with currentField := st.currentField ++ ['"'] }, false)
    else
      -- the pending quote closed the quoted section; process `c` unquoted
      let st := { st with inQuotes := false }
      if c = ',' then
        ({ st with currentRow := st.currentRow ++ [trim st.currentField],
                   currentField := [] }, false)
      else
        ({ st with currentField := st.currentField ++ [c] }, false)
  else
    if c = '"' then
      if st.inQuotes then (st, true)
      else ({ st with inQuotes := true }, false)
    else if c = ',' && !st.inQuotes then
      ({ st with currentRow := st.currentRow ++ [trim st.currentField],
                 currentField := [] }, false)
    else
      ({ st with currentField := st.currentField ++ [c] }, false)

/-- The inner character loop of `parseCSV` over one physical line.  A `"`
still pending at the end of the line had no following character in the
source's lookahead, so it simply toggled `inQuotes` off. -/
def scanChars (st : ScanState) (line : Str) : ScanState :=
  let p := line.foldl scanStep (st, false)
  if p.2 then { p.1 with inQuotes := false } else p.1

/-- The end-of-physical-line handling of `parseCSV`: while inside quotes the
field continues onto the next line with a literal newline appended; otherwise
the last field is closed (if the field buffer or the row is non-empty), the
row is emitted only when it has at least one non-empty field, and the buffers
are reset. -/
def endLine (st : ScanState) : ScanState :=
  if st.inQuotes then { st with currentField := st.currentField ++ ['\n'] }
  else
    let row := if !st.currentField.isEmpty || !st.currentRow.isEmpty
               then st.currentRow ++ [trim st.currentField] else st.currentRow
    let rows := if !row.isEmpty && row.any (fun f => !f.isEmpty)
                then st.rows ++ [row] else st.rows
    ⟨rows, [], [], false⟩

/-- The trailing flush of `parseCSV` after the final line: any pending
field/row is closed and emitted under the same non-empty-row rule. -/
def finalFlush (st : ScanState) : List (List Str) :=
  if !st.currentField.isEmpty || !st.currentRow.isEmpty then
    let row := st.currentRow ++ [trim st.currentField]
    if !row.isEmpty && row.any (fun f => !f.isEmpty) then st.rows ++ [row] else st.rows
  else st.rows

/-- The initial scanning state. -/
def initState : ScanState := ⟨[], [], [], false⟩

/-- `parseCSV(csvText)`: split the input on `'\n'`, run the character scan
line by line, and flush the remainder. -/
def parseCSV (csvText : Str) : List (List Str) :=
  finalFlush ((splitOnChar '\n' csvText).foldl (fun st line => endLine (scanChars st line)) initState)

/-- `cleanField(field)`: trim, drop a leading comma (re-trimming), unwrap a
matching pair of outer quotes (dropping a trailing comma of the interior),
otherwise drop a trailing comma (re-trimming).  In the quoted branch the
source returns the interior content both when it needs re-quoting and when it
does not, which is kept verbatim here. -/
def cleanField (field : Str) : Str :=
  let t0 := trim field
  let t1 := if t0.head? = some ',' then trim (t0.drop 1) else t0
  if t1.head? = some '"' ∧ t1.getLast? = some '"' ∧ t1.length > 1 then
    let unquotedContent := (t1.drop 1).dropLast
    if unquotedContent.getLast? = some ',' then
      unquotedContent.dropLast
    else
      let needsQuotes := unquotedContent.contains ',' || unquotedContent.contains '"' ||
                         unquotedContent.contains '\n' || unquotedContent.contains '\r'
      if !needsQuotes then unquotedContent else unquotedContent
  else
    if t1.getLast? = some ',' then trim t1.dropLast else t1

/-- The fixed allow-list of legitimate TLDs in `autoCorrectEmailDomain`. -/
def validTLDs : List Str :=
  [strOf ".co", strOf ".io", strOf ".org", strOf ".net", strOf ".edu", strOf ".gov",
   strOf ".mil", strOf ".int", strOf ".uk", strOf ".us", strOf ".ca", strOf ".au",
   strOf ".in", strOf ".de", strOf ".fr", strOf ".jp", strOf ".cn"]

/-- The fixed typo-to-correction table in `autoCorrectEmailDomain`. -/
def typoCorrections : List (Str × Str) :=
  [(strOf ".con", strOf ".com"), (strOf ".cmo", strOf ".com"), (strOf ".comn", strOf ".com"),
   (strOf ".comm", strOf ".com"), (strOf ".coom", strOf ".com"), (strOf ".com,", strOf ".com"),
   (strOf ".con,", strOf ".com"), (strOf ".cmo,", strOf ".com"), (strOf ".or", strOf ".org"),
   (strOf ".ogr", strOf ".org"), (strOf ".net,", strOf ".net"), (strOf ".ne", strOf ".net")]

/-- Model of JavaScript `toLowerCase()` (character-wise, ASCII). -/
def lowerStr (s : Str) : Str := s.map Char.toLower

/-- Lookup in the typo table (a JavaScript object keyed by the TLD string). -/
def lookupTypo (tld : Str) : Option Str :=
  (typoCorrections.find? (fun p => p.1 == tld)).map (fun p => p.2)

/-- Model of JavaScript `s.lastIndexOf(c)` (as `none` for `-1`). -/
def lastIndexOfChar (c : Char) (s : Str) : Option Nat :=
  match s.reverse.findIdx? (fun x => x == c) with
  | none => none
  | some k => some (s.length - 1 - k)

/-- `autoCorrectEmailDomain(email)`: trim; return unchanged unless the string
contains `@` with a non-empty second chunk (the domain) containing a dot; do
not touch allow-listed TLDs; otherwise replace the TLD through the typo table
(also retrying with one trailing comma stripped). -/
def autoCorrectEmailDomain (email : Str) : Str :=
  let trimmedEmail := trim email
  if !trimmedEmail.contains '@' then trimmedEmail
  else
    let parts := splitOnChar '@' trimmedEmail
    let localPart := parts.getD 0 []
    let domain := parts.getD 1 []
    if domain.isEmpty then trimmedEmail
    else
      match lastIndexOfChar '.' domain with
      | none => trimmedEmail
      | some lastDotIndex =>
        let tld := domain.drop lastDotIndex
        let baseDomain := domain.take lastDotIndex
        if validTLDs.contains (lowerStr tld) then trimmedEmail
        else
          match lookupTypo (lowerStr tld) with
          | some correctedTLD => localPart ++ ['@'] ++ baseDomain ++ correctedTLD
          | none =>
            if tld.getLast? = some ',' then
              match lookupTypo (lowerStr tld.dropLast) with
              | some correctedTLD => localPart ++ ['@'] ++ baseDomain ++ correctedTLD
              | none => trimmedEmail
            else trimmedEmail

/-- Whether the chunk after the `@` has a dot that is neither its first nor
its last character; used to express the `[^\s@]+\.[^\s@]+` part of the email
regular expression. -/
def hasInternalDot (b : Str) : Bool := ((b.drop 1).dropLast).contains '.'

/-- The test of the regular expression `/^[^\s@]+@[^\s@]+\.[^\s@]+$/`: exactly
one `@`, both chunks non-empty and free of whitespace, and the second chunk
containing a dot with at least one character on each side. -/
def emailRegexTest (s : Str) : Bool :=
  match splitOnChar '@' s with
  | [a, b] =>
    !a.isEmpty && a.all (fun c => !isWS c) && !b.isEmpty && b.all (fun c => !isWS c) &&
    hasInternalDot b
  | _ => false

/-- `isValidEmail(email)`: non-empty after trimming, exactly one `@`,
non-empty local part and domain, domain containing a dot but not starting or
ending with one, and matching the email regular expression. -/
def isValidEmail (email : Str) : Bool :=
  if (trim email).isEmpty then false
  else
    let trimmedEmail := trim email
    let atCount := trimmedEmail.count '@'
    if atCount ≠ 1 then false
    else
      let parts := splitOnChar '@' trimmedEmail
      let localPart := parts.getD 0 []
      let domain := parts.getD 1 []
      if localPart.isEmpty || domain.isEmpty then false
      else if !domain.contains '.' then false
      else if domain.head? = some '.' ∨ domain.getLast? = some '.' then false
      else emailRegexTest trimmedEmail

/-- The characters stripped by `isValidPhoneNumber` (the regex class
`[\s\-\(\)\+\.]`). -/
def isPhoneFormattingChar (c : Char) : Bool :=
  isWS c || c = '-' || c = '(' || c = ')' || c = '+' || c = '.'

/-- `isValidPhoneNumber(phone)`: non-empty after trimming; after stripping
formatting characters the remainder must be non-empty, all digits, and
contain between 10 and 15 digits inclusive. -/
def isValidPhoneNumber (phone : Str) : Bool :=
  if (trim phone).isEmpty then false
  else
    let trimmedPhone := trim phone
    let digitsOnly := trimmedPhone.filter (fun c => !isPhoneFormattingChar c)
    if !(!digitsOnly.isEmpty && digitsOnly.all Char.isDigit) then false
    else if digitsOnly.length < 10 ∨ digitsOnly.length > 15 then false
    else true

/-- One step of the quote counting loop of `validateAndCleanRow`.  The flag is
`true` when the previous character was a quote whose classification (escaped
pair, skipped with `i++`, versus counted unescaped quote) depends on the
current character. -/
def qcStep (p : Nat × Bool) (c : Char) : Nat × Bool :=
  if p.2 then
    if c = '"' then (p.1, false) else (p.1 + 1, false)
  else
    if c = '"' then (p.1, true) else (p.1, false)

/-- The quote counting loop of `validateAndCleanRow`: quotes that are part of
an escaped `""` pair are skipped, every other quote is counted.  A quote
pending at the end of the string is the last character, counted by the
source's `else` branch. -/
def unescapedQuoteCount (s : Str) : Nat :=
  let p := s.foldl qcStep (0, false)
  if p.2 then p.1 + 1 else p.1

/-- The line-terminator characters that JavaScript's `.` does not match (for
the ASCII inputs this program handles). -/
def isLineTerminator (c : Char) : Bool := c = '\n' || c = '\r'

/-- Whether `c0` occurs in the string preceded only by non-line-terminator
characters: the test of `.*` followed by the literal `c0`, starting here. -/
def charBeforeNewline (c0 : Char) : Str → Bool
  | [] => false
  | c :: rest =>
    if c = c0 then true
    else if isLineTerminator c then false
    else charBeforeNewline c0 rest

/-- The test of `/^,.*["]/`: a leading comma with a quote after it on the
same line (JavaScript's `.` does not match line terminators). -/
def leadingCommaThenQuote (s : Str) : Bool :=
  match s with
  | ',' :: rest => charBeforeNewline '"' rest
  | _ => false

/-- The test of `/["].*,/`: some quote with a comma after it on the same
line (JavaScript's `.` does not match line terminators). -/
def quoteThenComma : Str → Bool
  | [] => false
  | '"' :: rest => charBeforeNewline ',' rest || quoteThenComma rest
  | _ :: rest => quoteThenComma rest

/-- The per-field malformed-quote sweep of `validateAndCleanRow`: reject on an
odd number of unescaped quotes, or on a residual `^,.*"` / `".*,` pattern. -/
def fieldPassesSweep (field : Str) : Bool :=
  let trimmedField := trim field
  let quoteCount := unescapedQuoteCount trimmedField
  if quoteCount > 0 ∧ quoteCount % 2 ≠ 0 then false
  else if leadingCommaThenQuote trimmedField || quoteThenComma trimmedField then false
  else true

/-- The email block of `validateAndCleanRow`: when the email index is in
range, auto-correct the field, write it back, and reject the row when the
corrected value fails `isValidEmail`. -/
def applyEmailStep (cleanedRow : List Str) (emailColumnIndex : Int) : Option (List Str) :=
  if 0 ≤ emailColumnIndex ∧ emailColumnIndex < (cleanedRow.length : Int) then
    let i := emailColumnIndex.toNat
    let email := autoCorrectEmailDomain (cleanedRow.getD i [])
    let updatedRow := cleanedRow.set i email
    if !isValidEmail email then none else some updatedRow
  else some cleanedRow

/-- The phone block of `validateAndCleanRow`: when the phone index is in
range and the field is non-empty (and non-empty after trimming) but fails
`isValidPhoneNumber`, the field is overwritten with the empty string; the row
is never rejected here. -/
def applyPhoneStep (cleanedRow : List Str) (phoneColumnIndex : Int) : List Str :=
  if 0 ≤ phoneColumnIndex ∧ phoneColumnIndex < (cleanedRow.length : Int) then
    let i := phoneColumnIndex.toNat
    let phone := cleanedRow.getD i []
    if phone ≠ [] ∧ (trim phone).length > 0 ∧ isValidPhoneNumber phone = false then
      cleanedRow.set i []
    else cleanedRow
  else cleanedRow

/-- `validateAndCleanRow(row, expectedColumns, emailColumnIndex,
phoneColumnIndex)`: reject on a wrong field count, clean every field, run the
email block, the phone block, and the malformed-quote sweep. -/
def validateAndCleanRow (row : List Str) (expectedColumns : Nat)
    (emailColumnIndex phoneColumnIndex : Int) : Option (List Str) :=
  if row.length ≠ expectedColumns then none
  else
    match applyEmailStep (row.map cleanField) emailColumnIndex with
    | none => none
    | some rowAfterEmail =>
      let rowAfterPhone := applyPhoneStep rowAfterEmail phoneColumnIndex
      if rowAfterPhone.all fieldPassesSweep then some rowAfterPhone else none

/-- The quote doubling of `arrayToCSV` (`field.replace(/"/g, '""')`). -/
def escapeQuotes (field : Str) : Str :=
  (field.map (fun c => if c = '"' then ['"', '"'] else [c])).flatten

/-- The per-field serialization of `arrayToCSV`: wrap in quotes (doubling
internal quotes) iff the field contains a comma, a quote, or a newline. -/
def csvEscapeField (field : Str) : Str :=
  if field.contains ',' || field.contains '"' || field.contains '\n' then
    ['"'] ++ escapeQuotes field ++ ['"']
  else field

/-- Model of JavaScript `Array.prototype.join(sep)`. -/
def joinWith (sep : Str) : List Str → Str
  | [] => []
  | x :: xs => xs.foldl (fun acc y => acc ++ sep ++ y) x

/-- `arrayToCSV(rows)`: join fields with commas and rows with newlines,
quoting only the fields that require it. -/
def arrayToCSV (rows : List (List Str)) : Str :=
  joinWith ['\n'] (rows.map (fun row => joinWith [','] (row.map csvEscapeField)))

/-- The result record of `validateAndCleanCSV`. -/
structure ParseResult where
  validRows : List (List Str)
  invalidRowCount : Nat
deriving DecidableEq

/-- The failure modes of `validateAndCleanCSV`: the structural `Error` the
source constructs and throws, and the JavaScript `TypeError` raised when
`rows[0]` is `undefined` and its `.length` is read. -/
inductive RunError where
  | structureError (message : Str)
  | undefinedHeaderAccess
deriving DecidableEq

/-- A call of `validateAndCleanCSV` either returns a `ParseResult` or throws. -/
inductive RunResult where
  | ok (result : ParseResult)
  | thrown (e : RunError)
deriving DecidableEq

/-- Decimal rendering of a number, for the interpolated error messages. -/
def natToStr (n : Nat) : Str := (toString n).data

/-- The message of the column count mismatch error. -/
def countMismatchMsg (expected found : Nat) : Str :=
  strOf "Column count mismatch. Expected " ++ natToStr expected ++
  strOf " columns, but CSV has " ++ natToStr found ++ strOf " columns."

/-- The message of the column name mismatch error. -/
def nameMismatchMsg (position : Nat) (expected found : Str) : Str :=
  strOf "Column name mismatch at position " ++ natToStr position ++
  strOf ". Expected \"" ++ expected ++ strOf "\", but found \"" ++ found ++ strOf "\"."

/-- Model of JavaScript `hay.includes(needle)` on strings. -/
def strHasSub (needle hay : Str) : Bool :=
  (List.range (hay.length + 1)).any (fun i => (hay.drop i).take needle.length == needle)

/-- The email column search: first expected column whose lower-cased name
contains `"email"`, else `-1`. -/
def findEmailIndex (expectedColumns : List Str) : Int :=
  match (List.range expectedColumns.length).find?
      (fun i => strHasSub (strOf "email") (lowerStr (expectedColumns.getD i []))) with
  | some i => (i : Int)
  | none => -1

/-- The phone column search: first expected column whose lower-cased name
contains `"phone"`, `"mobile"`, or `"contact"`, else `-1`. -/
def findPhoneIndex (expectedColumns : List Str) : Int :=
  match (List.range expectedColumns.length).find?
      (fun i =>
        let colName := lowerStr (expectedColumns.getD i [])
        strHasSub (strOf "phone") colName || strHasSub (strOf "mobile") colName ||
        strHasSub (strOf "contact") colName) with
  | some i => (i : Int)
  | none => -1

/-- The header-name loop: the first position where the normalized header
differs from the normalized expected name. -/
def firstNameMismatch (normalizedExpected normalizedHeaders : List Str) : Option Nat :=
  (List.range normalizedExpected.length).find?
    (fun i => !(normalizedHeaders.getD i [] == normalizedExpected.getD i []))

/-- The data-row loop of `validateAndCleanCSV`: starting from the cleaned
header as the first output row, append every accepted cleaned row and count
the rejected ones. -/
def processDataRows (rows : List (List Str)) (expectedLen : Nat)
    (emailColumnIndex phoneColumnIndex : Int) (cleanedHeaders : List Str) :
    List (List Str) × Nat :=
  rows.foldl
    (fun acc parsedRow =>
      match validateAndCleanRow parsedRow expectedLen emailColumnIndex phoneColumnIndex with
      | some cleanedRow => (acc.1 ++ [cleanedRow], acc.2)
      | none => (acc.1, acc.2 + 1))
    ([cleanedHeaders], 0)

/-- `validateAndCleanCSV(csvText, expectedColumns)`: early empty-input check
on the blank-filtered lines, tokenization, header count and name validation
(the thrown `Error`s), email/phone column search, header cleaning, and the
data-row loop.  When the blank check passes but `parseCSV` produced no rows,
`rows[0]` is `undefined` in the source and reading `headers.length` throws a
`TypeError`, modelled by `RunError.undefinedHeaderAccess`. -/
def validateAndCleanCSV (csvText : Str) (expectedColumns : List Str) : RunResult :=
  let lines := (splitOnChar '\n' csvText).filter (fun line => (trim line).length > 0)
  if lines.isEmpty then .ok ⟨[], 0⟩
  else
    let rows := parseCSV csvText
    match rows.head? with
    | none => .thrown .undefinedHeaderAccess
    | some headers =>
      if headers.length ≠ expectedColumns.length then
        .thrown (.structureError (countMismatchMsg expectedColumns.length headers.length))
      else
        let normalizedHeaders := headers.map (fun h => trim (lowerStr h))
        let normalizedExpected := expectedColumns.map (fun c => trim (lowerStr c))
        match firstNameMismatch normalizedExpected normalizedHeaders with
        | some i =>
          .thrown (.structureError
            (nameMismatchMsg (i + 1) (expectedColumns.getD i []) (headers.getD i [])))
        | none =>
          let emailColumnIndex := findEmailIndex expectedColumns
          let phoneColumnIndex := findPhoneIndex expectedColumns
          let cleanedHeaders := headers.map cleanField
          let result := processDataRows (rows.drop 1) expectedColumns.length
                          emailColumnIndex phoneColumnIndex cleanedHeaders
          .ok ⟨result.1, result.2⟩

/-! ### Basic facts about `trim` -/

lemma mem_trimL {a : Char} {s : Str} (h : a ∈ trimL s) : a ∈ s :=
  (List.dropWhile_sublist _).subset h

lemma mem_trimR {a : Char} {s : Str} (h : a ∈ trimR s) : a ∈ s := by
  unfold trimR at h
  exact List.mem_reverse.mp ((List.dropWhile_sublist _).subset (List.mem_reverse.mp h))

lemma mem_trim {a : Char} {s : Str} (h : a ∈ trim s) : a ∈ s :=
  mem_trimL (mem_trimR h)

lemma dropWhile_idem {p : Char → Bool} {l : List Char} :
    (l.dropWhile p).dropWhile p = l.dropWhile p := by
  induction l with
  | nil => rfl
  | cons a t ih =>
    by_cases h : p a
    · simp [List.dropWhile_cons, h, ih]
    · simp [List.dropWhile_cons, h]

lemma trimL_idem {s : Str} : trimL (trimL s) = trimL s := dropWhile_idem

lemma trimR_idem {s : Str} : trimR (trimR s) = trimR s := by
  unfold trimR
  rw [List.reverse_reverse, dropWhile_idem]

lemma trimR_prefix (s : Str) : ∃ t, s = trimR s ++ t := by
  refine ⟨(s.reverse.takeWhile isWS).reverse, ?_⟩
  conv_lhs => rw [← s.reverse_reverse, ← List.takeWhile_append_dropWhile isWS s.reverse]
  rw [List.reverse_append]
  rfl

lemma trimL_of_trimR {s : Str} (h : trimL s = s) : trimL (trimR s) = trimR s := by
  obtain ⟨t, ht⟩ := trimR_prefix s
  cases hR : trimR s with
  | nil => rfl
  | cons a u =>
    have hs : s = a :: (u ++ t) := by rw [ht, hR]; rfl
    have ha : ¬ isWS a = true := by
      intro hws
      rw [hs] at h
      unfold trimL at h
      rw [List.dropWhile_cons, if_pos hws] at h
      have hlen := congrArg List.length h
      have hle : ((u ++ t).dropWhile isWS).length ≤ (u ++ t).length :=
        (List.dropWhile_sublist _).length_le
      simp only [List.length_cons] at hlen
      omega
    unfold trimL
    rw [List.dropWhile_cons, if_neg ha]

lemma trim_idem {s : Str} : trim (trim s) = trim s := by
  unfold trim
  rw [trimL_of_trimR trimL_idem, trimR_idem]

lemma trim_eq_nil_iff {s : Str} : trim s = [] ↔ ∀ c ∈ s, isWS c := by
  constructor
  · intro h c hc
    have h1 : (trimL s).reverse.dropWhile isWS = [] := by
      have : ((trimL s).reverse.dropWhile isWS).reverse = [] := h
      simpa using congrArg List.reverse this
    have h2 : ∀ x ∈ trimL s, isWS x := by
      intro x hx
      exact List.dropWhile_eq_nil_iff.mp h1 x (List.mem_reverse.mpr hx)
    rcases (List.mem_append.mp
        (by rw [List.takeWhile_append_dropWhile isWS s]; exact hc :
          c ∈ s.takeWhile isWS ++ s.dropWhile isWS)) with hl | hr
    · exact List.mem_takeWhile_imp hl
    · exact h2 c hr
  · intro h
    have h1 : trimL s = [] := List.dropWhile_eq_nil_iff.mpr h
    unfold trim
    rw [h1]
    rfl

lemma trim_nil : trim ([] : Str) = [] := rfl

/-! ### Claim theorems settled by direct evaluation -/

/-- C1 (counterexample): on the blank input `""` with the non-empty expected
column list `["name"]`, `validateAndCleanCSV` *returns* the result
`{ validRows: [], invalidRowCount: 0 }` instead of failing with a
structural error. -/
theorem blank_input_counterexample :
    validateAndCleanCSV (strOf "") [strOf "name"] = .ok ⟨[], 0⟩ := by decide

/-- C2 (failing input): the input `","` passes the blank-input filter (the
line `","` is not whitespace-only) yet `parseCSV` drops its all-empty row and
returns no rows, so the source reads `.length` of `rows[0] = undefined` and
throws a `TypeError`, not the structural header error. -/
theorem comma_only_input_throws_type_error :
    validateAndCleanCSV (strOf ",") [strOf "name"] = .thrown .undefinedHeaderAccess := by decide

/-- C5: on expected columns `["name","email"]` and the input
`"name,email\nAda,ada@x.con\nBob,not-an-email\n"`, the pipeline returns the
cleaned header plus the single data row `["Ada","ada@x.com"]` (the `.con`
typo corrected), with one invalid row counted. -/
theorem pipeline_example_run :
    validateAndCleanCSV (strOf "name,email\nAda,ada@x.con\nBob,not-an-email\n")
      [strOf "name", strOf "email"]
      = .ok ⟨[[strOf "name", strOf "email"], [strOf "Ada", strOf "ada@x.com"]], 1⟩ := by decide

/-- C6: `autoCorrectEmailDomain` rewrites the typo TLD `.con` to `.com`, and
leaves `a@b.io` unchanged because `.io` is on the fixed allow-list of
legitimate TLDs. -/
theorem autoCorrect_con_and_io :
    autoCorrectEmailDomain (strOf "a@b.con") = strOf "a@b.com" ∧
    autoCorrectEmailDomain (strOf "a@b.io") = strOf "a@b.io" ∧
    strOf ".io" ∈ validTLDs := by decide

/-- C3 (counterexample): `cleanField` is not idempotent: on the field
`",x"` (a quoted comma-then-x) one application yields `,x` (the quoted
branch returns the interior verbatim) while a second application strips the
now-leading comma, yielding `x`. -/
theorem cleanField_not_idempotent :
    cleanField (cleanField (strOf "\",x\"")) ≠ cleanField (strOf "\",x\"") ∧
    cleanField (strOf "\",x\"") = strOf ",x" ∧
    cleanField (strOf ",x") = strOf "x" := by decide

/-- C4 (counterexample): a width-3 row whose email field validates and whose
phone field `"123"` is non-empty but fails `isValidPhoneNumber` is
nevertheless *rejected* by `validateAndCleanRow`, because the first field
`say "hi` has an odd number of unescaped quotes and the malformed-quote sweep
runs after the phone field is cleared. -/
theorem invalid_phone_row_rejected_by_sweep :
    ([strOf "say \"hi", strOf "bob@x.com", strOf "123"].length = 3) ∧
    isValidEmail (autoCorrectEmailDomain (cleanField (strOf "bob@x.com"))) = true ∧
    (trim (cleanField (strOf "123"))).length > 0 ∧
    isValidPhoneNumber (cleanField (strOf "123")) = false ∧
    validateAndCleanRow [strOf "say \"hi", strOf "bob@x.com", strOf "123"] 3 1 2 = none := by
  decide

/-! ### The blank-input path of the pipeline -/

/-- C1 (amended): for every expected column list, if every line of the input
is blank (no non-whitespace character), `validateAndCleanCSV` returns
`{ validRows: [], invalidRowCount: 0 }` — it does not fail. -/
theorem blank_input_returns_empty_result (csvText : Str) (expectedColumns : List Str)
    (hblank : ∀ l ∈ splitOnChar '\n' csvText, (trim l).length = 0) :
    validateAndCleanCSV csvText expectedColumns = .ok ⟨[], 0⟩ := by
  have hfil : (splitOnChar '\n' csvText).filter (fun line => (trim line).length > 0) = [] := by
    rw [List.filter_eq_nil_iff]
    intro a ha
    simp [hblank a ha]
  unfold validateAndCleanCSV
  simp only [hfil]
  rfl

/-- Witness for `blank_input_returns_empty_result` at the whitespace-only
input `"  \n "` and expected columns `["name"]`. -/
theorem blank_input_returns_empty_result_witness :
    validateAndCleanCSV (strOf "  \n ") [strOf "name"] = .ok ⟨[], 0⟩ :=
  blank_input_returns_empty_result (strOf "  \n ") [strOf "name"] (by decide)

/-! ### Scanning whitespace-only lines produces no rows -/

lemma scanStep_other {st : ScanState} {c : Char} (hq : c ≠ '"') (hc : c ≠ ',') :
    scanStep (st, false) c = ({ st with currentField := st.currentField ++ [c] }, false) := by
  unfold scanStep
  simp [hq, hc]

lemma foldl_scanStep_clean {a : Str} :
    ∀ {st : ScanState}, (∀ c ∈ a, c ≠ '"' ∧ c ≠ ',') →
      a.foldl scanStep (st, false) = ({ st with currentField := st.currentField ++ a }, false) := by
  induction a with
  | nil => intro st _; simp
  | cons c t ih =>
    intro st h
    have hc := h c (List.mem_cons_self c t)
    rw [List.foldl_cons, scanStep_other hc.1 hc.2,
        ih (fun x hx => h x (List.mem_cons_of_mem c hx))]
    simp

lemma scanChars_clean {st : ScanState} {a : Str} (h : ∀ c ∈ a, c ≠ '"' ∧ c ≠ ',') :
    scanChars st a = { st with currentField := st.currentField ++ a } := by
  unfold scanChars
  rw [foldl_scanStep_clean h]
  rfl

lemma ws_not_special {c : Char} (h : isWS c = true) : c ≠ '"' ∧ c ≠ ',' := by
  constructor <;> rintro rfl <;> simp [isWS] at h

lemma endLine_scan_blank {rows : List (List Str)} {line : Str}
    (h : ∀ c ∈ line, isWS c) :
    endLine (scanChars ⟨rows, [], [], false⟩ line) = ⟨rows, [], [], false⟩ := by
  rw [scanChars_clean (fun c hc => ws_not_special (h c hc))]
  unfold endLine
  have htr : trim line = [] := trim_eq_nil_iff.mpr h
  rcases line with _ | ⟨c, t⟩
  · rfl
  · simp [htr]

lemma parseCSV_blank {csvText : Str}
    (h : ∀ l ∈ splitOnChar '\n' csvText, ∀ c ∈ l, isWS c) :
    parseCSV csvText = [] := by
  unfold parseCSV
  have main : ∀ (ls : List Str), (∀ l ∈ ls, ∀ c ∈ l, isWS c) → ∀ rows : List (List Str),
      ls.foldl (fun st line => endLine (scanChars st line)) ⟨rows, [], [], false⟩
        = ⟨rows, [], [], false⟩ := by
    intro ls
    induction ls with
    | nil => intro _ rows; rfl
    | cons l t ih =>
      intro hh rows
      rw [List.foldl_cons, endLine_scan_blank (hh l (List.mem_cons_self l t))]
      exact ih (fun l' h' => hh l' (List.mem_cons_of_mem l h')) rows
  rw [show initState = (⟨[], [], [], false⟩ : ScanState) from rfl, main _ h []]
  rfl

/-! ### Header count mismatch (C7) -/

/-- C7: for every expected column list of length 3 and every input whose
parsed header row has exactly 2 fields, `validateAndCleanCSV` throws the
structural error whose message reports the expected count 3 and the found
count 2. -/
theorem header_count_mismatch_throws (expectedColumns : List Str) (csvText : Str)
    (headers : List Str)
    (hexp : expectedColumns.length = 3)
    (hhead : (parseCSV csvText).head? = some headers)
    (hlen : headers.length = 2) :
    validateAndCleanCSV csvText expectedColumns
      = .thrown (.structureError (countMismatchMsg 3 2)) := by
  have hne : parseCSV csvText ≠ [] := by
    intro h0
    rw [h0] at hhead
    exact Option.noConfusion hhead
  have hlines :
      ((splitOnChar '\n' csvText).filter (fun line => (trim line).length > 0)).isEmpty = false := by
    cases hh : (splitOnChar '\n' csvText).filter (fun line => (trim line).length > 0) with
    | cons x xs => rfl
    | nil =>
      exfalso
      apply hne
      apply parseCSV_blank
      intro l hl c hc
      have hz := List.filter_eq_nil_iff.mp hh l hl
      have h0 : trim l = [] := by
        simp only [decide_eq_true_eq, not_lt, Nat.le_zero] at hz
        exact List.length_eq_zero.mp hz
      exact trim_eq_nil_iff.mp h0 c hc
  unfold validateAndCleanCSV
  simp only [hlines, Bool.false_eq_true, if_false, hhead, hexp, hlen]
  rw [if_pos (show (2 : Nat) ≠ 3 by omega)]

/-- Witness for `header_count_mismatch_throws`: expected columns
`["x","y","z"]` against the input `"a,b"`, whose parsed header is the
2-field row `["a","b"]`. -/
theorem header_count_mismatch_throws_witness :
    validateAndCleanCSV (strOf "a,b") [strOf "x", strOf "y", strOf "z"]
      = .thrown (.structureError (countMismatchMsg 3 2)) :=
  header_count_mismatch_throws [strOf "x", strOf "y", strOf "z"] (strOf "a,b")
    [strOf "a", strOf "b"] (by decide) (by decide) (by decide)

/-! ### `cleanField` on fields without commas or quotes (C3, amended) -/

lemma mem_of_head?_some {a : Char} {l : Str} (h : l.head? = some a) : a ∈ l := by
  obtain ⟨ys, rfl⟩ := List.head?_eq_some_iff.mp h
  exact List.mem_cons_self a ys

lemma mem_of_getLast?_some {a : Char} {l : Str} (h : l.getLast? = some a) : a ∈ l := by
  obtain ⟨ys, rfl⟩ := List.getLast?_eq_some_iff.mp h
  exact List.mem_append_right ys (List.mem_cons_self a [])

lemma cleanField_plain {f : Str} (hc : ',' ∉ f) (hq : '"' ∉ f) :
    cleanField f = trim f := by
  have h1 : ¬ (trim f).head? = some ',' := fun h => hc (mem_trim (mem_of_head?_some h))
  have h2 : ¬ ((trim f).head? = some '"' ∧ (trim f).getLast? = some '"' ∧ (trim f).length > 1) :=
    fun h => hq (mem_trim (mem_of_head?_some h.1))
  have h3 : ¬ (trim f).getLast? = some ',' := fun h => hc (mem_trim (mem_of_getLast?_some h))
  unfold cleanField
  simp only [if_neg h1, if_neg h2, if_neg h3]

/-- C3 (amended): `cleanField` is idempotent on every field that contains no
comma and no double quote; on general fields idempotence fails (see the
counterexample `",x"`). -/
theorem cleanField_idempotent_on_plain_fields (f : Str)
    (hc : ',' ∉ f) (hq : '"' ∉ f) :
    cleanField (cleanField f) = cleanField f := by
  rw [cleanField_plain hc hq,
      cleanField_plain (fun h => hc (mem_trim h)) (fun h => hq (mem_trim h)),
      trim_idem]

/-- Witness for `cleanField_idempotent_on_plain_fields` at the field `" a "`. -/
theorem cleanField_idempotent_on_plain_fields_witness :
    cleanField (cleanField (strOf " a ")) = cleanField (strOf " a ") :=
  cleanField_idempotent_on_plain_fields (strOf " a ") (by decide) (by decide)

/-! ### The phone-clearing path of `validateAndCleanRow` (C4, amended) -/

/-- C4 (amended): for a row of the expected width whose email block succeeds
and whose phone field at the in-range phone index is non-empty after trimming
but fails `isValidPhoneNumber`, the phone failure does not reject the row:
provided the cleaned row with the phone field cleared passes the
malformed-quote sweep, `validateAndCleanRow` returns that row.  (Without the
sweep hypothesis the claim is false: see the counterexample.) -/
theorem invalid_phone_cleared_when_sweep_passes
    (row : List Str) (n : Nat) (eIdx pIdx : Int) (rowAfterEmail : List Str)
    (hlen : row.length = n)
    (hemail : applyEmailStep (row.map cleanField) eIdx = some rowAfterEmail)
    (hp0 : 0 ≤ pIdx) (hp1 : pIdx < (rowAfterEmail.length : Int))
    (hphone : (trim (rowAfterEmail.getD pIdx.toNat [])).length > 0)
    (hbad : isValidPhoneNumber (rowAfterEmail.getD pIdx.toNat []) = false)
    (hsweep : (rowAfterEmail.set pIdx.toNat []).all fieldPassesSweep = true) :
    validateAndCleanRow row n eIdx pIdx = some (rowAfterEmail.set pIdx.toNat []) := by
  have hphone_ne : rowAfterEmail.getD pIdx.toNat [] ≠ [] := by
    intro h0
    rw [h0] at hphone
    simp [trim_nil] at hphone
  have hstep : applyPhoneStep rowAfterEmail pIdx = rowAfterEmail.set pIdx.toNat [] := by
    unfold applyPhoneStep
    rw [if_pos ⟨hp0, hp1⟩]
    simp only []
    rw [if_pos ⟨hphone_ne, hphone, hbad⟩]
  unfold validateAndCleanRow
  rw [if_neg (by omega : ¬ row.length ≠ n), hemail]
  simp only [hstep, hsweep, if_true]

/-- Witness for `invalid_phone_cleared_when_sweep_passes`: the spec's example
row `["Bob","bob@x.com","123"]` with width 3, email index 1, phone index 2 is
accepted with the phone field cleared. -/
theorem invalid_phone_cleared_when_sweep_passes_witness :
    validateAndCleanRow [strOf "Bob", strOf "bob@x.com", strOf "123"] 3 1 2
      = some [strOf "Bob", strOf "bob@x.com", []] :=
  invalid_phone_cleared_when_sweep_passes
    [strOf "Bob", strOf "bob@x.com", strOf "123"] 3 1 2
    [strOf "Bob", strOf "bob@x.com", strOf "123"]
    (by decide) (by decide) (by decide) (by decide) (by decide) (by decide) (by decide)

/-! ### Every emitted row has a non-empty field (C9) -/

lemma any_nonempty_iff {r : List Str} :
    r.any (fun f => !f.isEmpty) = true ↔ ∃ f ∈ r, f ≠ [] := by
  simp [List.any_eq_true, List.isEmpty_iff]

lemma scanStep_rows (p : ScanState × Bool) (c : Char) : (scanStep p c).1.rows = p.1.rows := by
  unfold scanStep
  dsimp only
  split_ifs <;> rfl

lemma foldl_scanStep_rows (l : Str) :
    ∀ p : ScanState × Bool, (l.foldl scanStep p).1.rows = p.1.rows := by
  induction l with
  | nil => intro p; rfl
  | cons c t ih =>
    intro p
    rw [List.foldl_cons, ih, scanStep_rows]

lemma scanChars_rows (st : ScanState) (line : Str) : (scanChars st line).rows = st.rows := by
  unfold scanChars
  dsimp only
  split_ifs with h
  · exact foldl_scanStep_rows line (st, false)
  · exact foldl_scanStep_rows line (st, false)

lemma mem_rows_if {rows : List (List Str)} {row r : List Str}
    (h : r ∈ (if (!row.isEmpty && row.any fun f => !f.isEmpty) = true
              then rows ++ [row] else rows)) :
    r ∈ rows ∨ ∃ f ∈ r, f ≠ [] := by
  split at h
  next hc =>
    rcases List.mem_append.mp h with h' | h'
    · exact Or.inl h'
    · rw [List.mem_singleton.mp h']
      rw [Bool.and_eq_true] at hc
      exact Or.inr (any_nonempty_iff.mp hc.2)
  next hc => exact Or.inl h

lemma endLine_rows_mem {st : ScanState} {r : List Str} (h : r ∈ (endLine st).rows) :
    r ∈ st.rows ∨ ∃ f ∈ r, f ≠ [] := by
  unfold endLine at h
  by_cases hq : st.inQuotes
  · rw [if_pos hq] at h
    exact Or.inl h
  · rw [if_neg hq] at h
    exact mem_rows_if h

lemma finalFlush_mem {st : ScanState} {r : List Str} (h : r ∈ finalFlush st) :
    r ∈ st.rows ∨ ∃ f ∈ r, f ≠ [] := by
  unfold finalFlush at h
  split at h
  next h1 => exact mem_rows_if h
  next h1 => exact Or.inl h

/-- C9: every row returned by `parseCSV` contains at least one non-empty
field; rows whose fields are all empty are never emitted. -/
theorem parseCSV_rows_have_nonempty_field (csvText : Str) (row : List Str)
    (h : row ∈ parseCSV csvText) : ∃ f ∈ row, f ≠ [] := by
  unfold parseCSV at h
  have inv : ∀ (ls : List Str) (st : ScanState),
      (∀ r ∈ st.rows, ∃ f ∈ r, f ≠ []) →
      ∀ r ∈ finalFlush (ls.foldl (fun st line => endLine (scanChars st line)) st),
        ∃ f ∈ r, f ≠ [] := by
    intro ls
    induction ls with
    | nil =>
      intro st hst r hr
      rcases finalFlush_mem hr with h' | h'
      · exact hst r h'
      · exact h'
    | cons l t ih =>
      intro st hst r hr
      rw [List.foldl_cons] at hr
      refine ih (endLine (scanChars st l)) ?_ r hr
      intro r' hr'
      rcases endLine_rows_mem hr' with h' | h'
      · rw [scanChars_rows] at h'
        exact hst r' h'
      · exact h'
  refine inv _ initState ?_ row h
  intro r hr
  simp [initState] at hr

/-- Witness for `parseCSV_rows_have_nonempty_field` at the input `"a"`, whose
single parsed row is `["a"]`. -/
theorem parseCSV_rows_have_nonempty_field_witness :
    ∃ f ∈ [strOf "a"], f ≠ [] :=
  parseCSV_rows_have_nonempty_field (strOf "a") [strOf "a"] (by decide)

/-! ### Width invariant of the accepted rows (C10) -/

lemma applyEmailStep_length {r out : List Str} {i : Int}
    (h : applyEmailStep r i = some out) : out.length = r.length := by
  unfold applyEmailStep at h
  split at h
  next h1 =>
    dsimp only at h
    split at h
    next h2 => exact Option.noConfusion h
    next h2 =>
      cases h
      exact List.length_set r _ _
  next h1 =>
    cases h
    rfl

lemma applyPhoneStep_length (r : List Str) (i : Int) :
    (applyPhoneStep r i).length = r.length := by
  unfold applyPhoneStep
  split
  next h1 =>
    dsimp only
    split
    next h2 => exact List.length_set r _ _
    next h2 => rfl
  next h1 => rfl

lemma validateAndCleanRow_length {row out : List Str} {n : Nat} {e p : Int}
    (h : validateAndCleanRow row n e p = some out) : out.length = n := by
  unfold validateAndCleanRow at h
  split at h
  next h1 => exact Option.noConfusion h
  next h1 =>
    cases hes : applyEmailStep (row.map cleanField) e with
    | none => rw [hes] at h; exact Option.noConfusion h
    | some r1 =>
      rw [hes] at h
      dsimp only at h
      split at h
      next h2 =>
        cases h
        rw [applyPhoneStep_length, applyEmailStep_length hes, List.length_map]
        omega
      next h2 => exact Option.noConfusion h

lemma processDataRows_lengths (rows : List (List Str)) (n : Nat) (e p : Int)
    (hdr : List Str) (hhdr : hdr.length = n) :
    ∀ r ∈ (processDataRows rows n e p hdr).1, r.length = n := by
  unfold processDataRows
  have inv : ∀ (rs : List (List Str)) (acc : List (List Str) × Nat),
      (∀ r ∈ acc.1, r.length = n) →
      ∀ r ∈ (rs.foldl
          (fun acc parsedRow =>
            match validateAndCleanRow parsedRow n e p with
            | some cleanedRow => (acc.1 ++ [cleanedRow], acc.2)
            | none => (acc.1, acc.2 + 1)) acc).1,
        r.length = n := by
    intro rs
    induction rs with
    | nil => intro acc hacc r hr; exact hacc r hr
    | cons x t ih =>
      intro acc hacc r hr
      rw [List.foldl_cons] at hr
      cases hv : validateAndCleanRow x n e p with
      | none =>
        rw [hv] at hr
        exact ih (acc.1, acc.2 + 1) hacc r hr
      | some cr =>
        rw [hv] at hr
        refine ih (acc.1 ++ [cr], acc.2) ?_ r hr
        intro r' hr'
        rcases List.mem_append.mp hr' with h' | h'
        · exact hacc r' h'
        · rw [List.mem_singleton.mp h']
          exact validateAndCleanRow_length hv
  refine inv rows ([hdr], 0) ?_
  intro r hr
  rw [List.mem_singleton.mp hr]
  exact hhdr

/-- C10: whenever `validateAndCleanCSV` returns a result (rather than
throwing), every row of `validRows` — the cleaned header and every accepted
data row — has length exactly `expectedColumns.length`. -/
theorem validRows_width_invariant (csvText : Str) (expectedColumns : List Str)
    (result : ParseResult)
    (h : validateAndCleanCSV csvText expectedColumns = .ok result) :
    ∀ row ∈ result.validRows, row.length = expectedColumns.length := by
  unfold validateAndCleanCSV at h
  dsimp only at h
  split at h
  next hempty =>
    cases h
    intro row hr
    exact absurd hr (List.not_mem_nil row)
  next hempty =>
    cases hh : (parseCSV csvText).head? with
    | none =>
      rw [hh] at h
      exact RunResult.noConfusion h
    | some headers =>
      rw [hh] at h
      dsimp only at h
      split at h
      next hcount => exact RunResult.noConfusion h
      next hcount =>
        cases hm : firstNameMismatch (expectedColumns.map (fun c => trim (lowerStr c)))
            (headers.map (fun x => trim (lowerStr x))) with
        | some i =>
          rw [hm] at h
          exact RunResult.noConfusion h
        | none =>
          rw [hm] at h
          cases h
          intro row hr
          refine processDataRows_lengths _ _ _ _ _ ?_ row hr
          rw [List.length_map]
          omega

/-- Witness for `validRows_width_invariant`: on the run over `"name\nX"` with
expected columns `["name"]` the accepted data row `["X"]` has width 1. -/
theorem validRows_width_invariant_witness : ([strOf "X"]).length = 1 :=
  validRows_width_invariant (strOf "name\nX") [strOf "name"]
    ⟨[[strOf "name"], [strOf "X"]], 0⟩ (by decide) [strOf "X"] (by decide)

/-! ### Round trip of `arrayToCSV` after `parseCSV` on clean input (C8) -/

/-- A field that is "already clean and unquoted": no comma, no quote, no
newline, and no surrounding whitespace (`trim` leaves it unchanged). -/
def cleanUnquotedField (f : Str) : Prop :=
  ',' ∉ f ∧ '"' ∉ f ∧ '\n' ∉ f ∧ trim f = f

instance (f : Str) : Decidable (cleanUnquotedField f) :=
  decidable_of_iff (',' ∉ f ∧ '"' ∉ f ∧ '\n' ∉ f ∧ trim f = f) Iff.rfl

lemma contains_eq_false {c : Char} {s : Str} (h : c ∉ s) : s.contains c = false := by
  rw [← Bool.not_eq_true]
  intro hc
  exact h (List.elem_iff.mp hc)

lemma csvEscapeField_clean {f : Str} (hc : ',' ∉ f) (hq : '"' ∉ f) (hn : '\n' ∉ f) :
    csvEscapeField f = f := by
  unfold csvEscapeField
  rw [contains_eq_false hc, contains_eq_false hq, contains_eq_false hn]
  rfl

lemma splitOnChar_ne_nil (sep : Char) (s : Str) : splitOnChar sep s ≠ [] := by
  cases s with
  | nil => exact fun h => List.noConfusion h
  | cons c rest =>
    simp only [splitOnChar]
    cases h : splitOnChar sep rest with
    | nil => simp
    | cons hh tt =>
      dsimp only
      split <;> simp

lemma splitOnChar_append_no_sep {sep : Char} {a : Str} (ha : sep ∉ a) (b : Str) :
    ∀ {h : Str} {t : List Str}, splitOnChar sep b = h :: t →
      splitOnChar sep (a ++ b) = (a ++ h) :: t := by
  induction a with
  | nil =>
    intro h t hb
    simpa using hb
  | cons c a' ih =>
    intro h t hb
    have hc : c ≠ sep := fun hceq => ha (hceq ▸ List.mem_cons_self c a')
    show splitOnChar sep (c :: (a' ++ b)) = ((c :: a') ++ h) :: t
    simp only [splitOnChar]
    rw [ih (fun hm => ha (List.mem_cons_of_mem c hm)) hb]
    dsimp only
    rw [if_neg hc]
    rfl

lemma splitOnChar_no_sep {sep : Char} {a : Str} (ha : sep ∉ a) :
    splitOnChar sep a = [a] := by
  have h := splitOnChar_append_no_sep ha []
    (show splitOnChar sep [] = [] :: [] from rfl)
  simpa using h

lemma splitOnChar_sep_cons {sep : Char} {a : Str} (ha : sep ∉ a) (b : Str) :
    splitOnChar sep (a ++ sep :: b) = a :: splitOnChar sep b := by
  obtain ⟨h, t, hb⟩ : ∃ h t, splitOnChar sep b = h :: t := by
    cases hx : splitOnChar sep b with
    | nil => exact absurd hx (splitOnChar_ne_nil sep b)
    | cons hh tt => exact ⟨hh, tt, rfl⟩
  have hs : splitOnChar sep (sep :: b) = [] :: h :: t := by
    simp only [splitOnChar]
    rw [hb]
    simp
  have hmain := splitOnChar_append_no_sep ha (sep :: b) hs
  rw [hmain, hb]
  simp

lemma foldl_join_shift (sep : Str) (p : Str) :
    ∀ (rest : List Str) (acc : Str),
      rest.foldl (fun acc y => acc ++ sep ++ y) (p ++ acc)
        = p ++ rest.foldl (fun acc y => acc ++ sep ++ y) acc := by
  intro rest
  induction rest with
  | nil => intro acc; rfl
  | cons z t ih =>
    intro acc
    simp only [List.foldl_cons]
    rw [List.append_assoc p acc sep, List.append_assoc p (acc ++ sep) z]
    exact ih (acc ++ sep ++ z)

lemma joinWith_cons_cons (sep x y : Str) (rest : List Str) :
    joinWith sep (x :: y :: rest) = x ++ sep ++ joinWith sep (y :: rest) := by
  simp only [joinWith]
  simp only [List.foldl_cons]
  exact foldl_join_shift sep (x ++ sep) rest y

lemma mem_joinWith {c : Char} {sep : Str} :
    ∀ {ls : List Str}, c ∈ joinWith sep ls → c ∈ sep ∨ ∃ l ∈ ls, c ∈ l := by
  intro ls
  induction ls with
  | nil => intro h; exact absurd h (List.not_mem_nil c)
  | cons x xs ih =>
    intro h
    cases xs with
    | nil => exact Or.inr ⟨x, List.mem_cons_self x [], h⟩
    | cons y rest =>
      rw [joinWith_cons_cons] at h
      rcases List.mem_append.mp h with h' | h'
      · rcases List.mem_append.mp h' with h'' | h''
        · exact Or.inr ⟨x, List.mem_cons_self x _, h''⟩
        · exact Or.inl h''
      · rcases ih h' with h'' | ⟨l, hl, hcl⟩
        · exact Or.inl h''
        · exact Or.inr ⟨l, List.mem_cons_of_mem x hl, hcl⟩

lemma splitOnChar_joinWith {sep : Char} :
    ∀ (x : Str) (ls : List Str), (∀ l ∈ x :: ls, sep ∉ l) →
      splitOnChar sep (joinWith [sep] (x :: ls)) = x :: ls := by
  intro x ls
  induction ls generalizing x with
  | nil =>
    intro h
    exact splitOnChar_no_sep (h x (List.mem_cons_self x []))
  | cons y rest ih =>
    intro h
    rw [joinWith_cons_cons]
    have hx : sep ∉ x := h x (List.mem_cons_self x _)
    have hshow : x ++ [sep] ++ joinWith [sep] (y :: rest)
        = x ++ sep :: joinWith [sep] (y :: rest) := by
      rw [List.append_assoc]
      rfl
    rw [hshow, splitOnChar_sep_cons hx,
        ih y (fun l hl => h l (List.mem_cons_of_mem x hl))]

lemma scanChars_append_clean {st : ScanState} {a : Str} (b : Str)
    (h : ∀ c ∈ a, c ≠ '"' ∧ c ≠ ',') :
    scanChars st (a ++ b) = scanChars { st with currentField := st.currentField ++ a } b := by
  unfold scanChars
  rw [List.foldl_append, foldl_scanStep_clean h]

lemma scanChars_comma_cons {st : ScanState} (h : st.inQuotes = false) (b : Str) :
    scanChars st (',' :: b)
      = scanChars { st with currentRow := st.currentRow ++ [trim st.currentField],
                            currentField := [] } b := by
  have hstep : scanStep (st, false) ','
      = ({ st with currentRow := st.currentRow ++ [trim st.currentField],
                   currentField := [] }, false) := by
    unfold scanStep
    simp [h]
  unfold scanChars
  rw [List.foldl_cons, hstep]

lemma no_special_of_clean {f : Str} (hc : ',' ∉ f) (hq : '"' ∉ f) :
    ∀ c ∈ f, c ≠ '"' ∧ c ≠ ',' := by
  intro c hcf
  exact ⟨fun h => hq (h ▸ hcf), fun h => hc (h ▸ hcf)⟩

lemma scan_fields (rows : List (List Str)) :
    ∀ (fs : List Str) (x : Str) (curRow : List Str),
      (∀ f ∈ x :: fs, ',' ∉ f ∧ '"' ∉ f) →
      scanChars ⟨rows, curRow, [], false⟩ (joinWith [','] (x :: fs))
        = ⟨rows, curRow ++ ((x :: fs).dropLast.map trim),
            (x :: fs).getLast (List.cons_ne_nil x fs), false⟩ := by
  intro fs
  induction fs with
  | nil =>
    intro x curRow h
    have hx := h x (List.mem_cons_self x [])
    have hscan := @scanChars_clean ⟨rows, curRow, [], false⟩ x
      (no_special_of_clean hx.1 hx.2)
    simpa using hscan
  | cons y rest ih =>
    intro x curRow h
    have hx := h x (List.mem_cons_self x _)
    rw [joinWith_cons_cons]
    have hshow : x ++ [','] ++ joinWith [','] (y :: rest)
        = x ++ (',' :: joinWith [','] (y :: rest)) := by
      rw [List.append_assoc]
      rfl
    rw [hshow, scanChars_append_clean _ (no_special_of_clean hx.1 hx.2)]
    rw [show ({ rows := rows, currentRow := curRow, currentField := [] ++ x,
                inQuotes := false } : ScanState)
          = ⟨rows, curRow, x, false⟩ from by simp]
    rw [scanChars_comma_cons rfl]
    rw [show ({ rows := rows, currentRow := curRow ++ [trim x], currentField := [],
                inQuotes := false } : ScanState)
          = ⟨rows, curRow ++ [trim x], [], false⟩ from rfl]
    rw [ih y (curRow ++ [trim x]) (fun f hf => h f (List.mem_cons_of_mem x hf))]
    rw [show (x :: y :: rest).dropLast = x :: (y :: rest).dropLast from rfl]
    rw [List.map_cons, List.getLast_cons (List.cons_ne_nil y rest)]
    rw [List.append_assoc]
    rfl

lemma process_clean_line (rows : List (List Str)) (row : List Str)
    (hne : row ≠ [])
    (hclean : ∀ f ∈ row, ',' ∉ f ∧ '"' ∉ f ∧ trim f = f)
    (hany : ∃ f ∈ row, f ≠ []) :
    endLine (scanChars ⟨rows, [], [], false⟩ (joinWith [','] row))
      = ⟨rows ++ [row], [], [], false⟩ := by
  obtain ⟨x, fs, rfl⟩ : ∃ x fs, row = x :: fs := by
    cases row with
    | nil => exact absurd rfl hne
    | cons x fs => exact ⟨x, fs, rfl⟩
  rw [scan_fields rows fs x [] (fun f hf => ⟨(hclean f hf).1, (hclean f hf).2.1⟩)]
  have hmapid : ((x :: fs).dropLast.map trim) = (x :: fs).dropLast := by
    rw [List.map_congr_left
        (fun f hf => (hclean f ((List.dropLast_sublist (x :: fs)).subset hf)).2.2),
      List.map_id']
  have hlast := List.dropLast_append_getLast (List.cons_ne_nil x fs)
  have hlasttrim : trim ((x :: fs).getLast (List.cons_ne_nil x fs))
      = (x :: fs).getLast (List.cons_ne_nil x fs) :=
    (hclean _ (List.getLast_mem (List.cons_ne_nil x fs))).2.2
  unfold endLine
  rw [if_neg (by simp : ¬ (⟨rows, [] ++ (x :: fs).dropLast.map trim,
        (x :: fs).getLast (List.cons_ne_nil x fs), false⟩ : ScanState).inQuotes = true)]
  dsimp only
  rw [hmapid, List.nil_append, hlasttrim]
  have hcond1 : (!((x :: fs).getLast (List.cons_ne_nil x fs)).isEmpty
      || !((x :: fs).dropLast).isEmpty) = true := by
    by_cases hl : (x :: fs).getLast (List.cons_ne_nil x fs) = []
    · have hd : (x :: fs).dropLast ≠ [] := by
        intro h2
        have hrow : (x :: fs) = [[]] := by
          conv_lhs => rw [← hlast]
          rw [hl, h2]
          rfl
        obtain ⟨f, hf, hfne⟩ := hany
        rw [hrow] at hf
        exact hfne (List.mem_singleton.mp hf)
      rw [Bool.or_eq_true]
      exact Or.inr (by rw [Bool.not_eq_true', List.isEmpty_eq_false]; exact hd)
    · rw [Bool.or_eq_true]
      exact Or.inl (by rw [Bool.not_eq_true', List.isEmpty_eq_false]; exact hl)
  rw [if_pos hcond1, hlast]
  have hcond2 : (!(x :: fs).isEmpty && (x :: fs).any fun f => !f.isEmpty) = true := by
    rw [Bool.and_eq_true]
    exact ⟨by simp, any_nonempty_iff.mpr hany⟩
  rw [if_pos hcond2]

lemma finalFlush_reset (rows : List (List Str)) :
    finalFlush ⟨rows, [], [], false⟩ = rows := rfl

lemma parse_serialize_id (rs : List (List Str))
    (hclean : ∀ row ∈ rs, ∀ f ∈ row, cleanUnquotedField f)
    (hpres : ∀ row ∈ rs, ∃ f ∈ row, f ≠ []) :
    parseCSV (arrayToCSV rs) = rs := by
  have hlineOf : rs.map (fun row => joinWith [','] (row.map csvEscapeField))
      = rs.map (fun row => joinWith [','] row) := by
    refine List.map_congr_left ?_
    intro row hrow
    congr 1
    rw [List.map_congr_left (fun f hf =>
      csvEscapeField_clean (hclean row hrow f hf).1 (hclean row hrow f hf).2.1
        (hclean row hrow f hf).2.2.1), List.map_id']
  cases rs with
  | nil => rfl
  | cons r0 rest =>
    unfold arrayToCSV
    rw [hlineOf]
    have hnolines : ∀ l ∈ (r0 :: rest).map (fun row => joinWith [','] row), '\n' ∉ l := by
      intro l hl hmem
      obtain ⟨row, hrow, rfl⟩ := List.mem_map.mp hl
      rcases mem_joinWith hmem with h' | ⟨f, hf, hcf⟩
      · simp at h'
      · exact (hclean row hrow f hf).2.2.1 hcf
    unfold parseCSV
    rw [show (r0 :: rest).map (fun row => joinWith [','] row)
          = joinWith [','] r0 :: rest.map (fun row => joinWith [','] row) from rfl]
    rw [splitOnChar_joinWith (joinWith [','] r0) (rest.map (fun row => joinWith [','] row))
        hnolines]
    have fold_main : ∀ (rs' : List (List Str)) (rows0 : List (List Str)),
        (∀ row ∈ rs', ∀ f ∈ row, cleanUnquotedField f) →
        (∀ row ∈ rs', ∃ f ∈ row, f ≠ []) →
        (rs'.map (fun row => joinWith [','] row)).foldl
            (fun st line => endLine (scanChars st line)) ⟨rows0, [], [], false⟩
          = ⟨rows0 ++ rs', [], [], false⟩ := by
      intro rs'
      induction rs' with
      | nil => intro rows0 _ _; simp
      | cons row t ih =>
        intro rows0 hc hp
        rw [List.map_cons, List.foldl_cons]
        have hrowne : row ≠ [] := by
          obtain ⟨f, hf, _⟩ := hp row (List.mem_cons_self row t)
          intro h0
          rw [h0] at hf
          exact List.not_mem_nil f hf
        rw [process_clean_line rows0 row hrowne
            (fun f hf => ⟨(hc row (List.mem_cons_self row t) f hf).1,
                          (hc row (List.mem_cons_self row t) f hf).2.1,
                          (hc row (List.mem_cons_self row t) f hf).2.2.2⟩)
            (hp row (List.mem_cons_self row t))]
        rw [ih (rows0 ++ [row])
            (fun r hr => hc r (List.mem_cons_of_mem row hr))
            (fun r hr => hp r (List.mem_cons_of_mem row hr))]
        rw [List.append_assoc]
        rfl
    rw [show initState = (⟨[], [], [], false⟩ : ScanState) from rfl]
    rw [show (joinWith [','] r0 :: rest.map (fun row => joinWith [','] row))
          = (r0 :: rest).map (fun row => joinWith [','] row) from rfl]
    rw [fold_main (r0 :: rest) [] hclean hpres]
    rw [finalFlush_reset]
    rfl

/-- C8: for every row-preserving list of rows (each row has a non-empty
field) in which every field is already clean and unquoted, the serialized
text `arrayToCSV rs` tokenizes back to exactly those rows, and serializing
the tokenizer's output reproduces the original text exactly. -/
theorem tokenizer_serializer_roundtrip (rs : List (List Str))
    (hclean : ∀ row ∈ rs, ∀ f ∈ row, cleanUnquotedField f)
    (hpres : ∀ row ∈ rs, ∃ f ∈ row, f ≠ []) :
    parseCSV (arrayToCSV rs) = rs ∧
    arrayToCSV (parseCSV (arrayToCSV rs)) = arrayToCSV rs := by
  have h := parse_serialize_id rs hclean hpres
  exact ⟨h, by rw [h]⟩

/-- Witness for `tokenizer_serializer_roundtrip` at the rows
`[["a","b"],["c"]]`, serialized as `"a,b\nc"`. -/
theorem tokenizer_serializer_roundtrip_witness :
    parseCSV (arrayToCSV [[strOf "a", strOf "b"], [strOf "c"]])
        = [[strOf "a", strOf "b"], [strOf "c"]] ∧
    arrayToCSV (parseCSV (arrayToCSV [[strOf "a", strOf "b"], [strOf "c"]]))
        = arrayToCSV [[strOf "a", strOf "b"], [strOf "c"]] :=
  tokenizer_serializer_roundtrip [[strOf "a", strOf "b"], [strOf "c"]]
    (by decide) (by decide)

end Csv
